import Mathlib

/-!
Shallow embedding of the Crossover Detection & Signal Ledger core of the
TQQQ repository (src/tqqq/signals.py, src/tqqq/database.py, src/tqqq/config.py).

Dates are modelled as natural numbers (the code stores ISO-8601 TEXT dates and
always orders them lexicographically, which is order-isomorphic to a totally
ordered key); closing prices are modelled as rationals (the code uses binary
floating point; every claim under study is about order and set structure, not
rounding). A pandas DataFrame of (date, close) rows is a `List (Nat × Rat)`,
the sqlite tables are association lists of rows.
-/

namespace TQQQ

/-- Configuration constant from src/tqqq/config.py: MA_SHORT = 5. -/
def MA_SHORT : Nat := 5

/-- Configuration constant from src/tqqq/config.py: MA_LONG = 30. -/
def MA_LONG : Nat := 30

/-- A row of the crossover_signals table / a signal dict produced by
detect_crossovers: ticker, date, signal_type, close_price, ma5, ma30. -/
structure Signal where
  ticker : String
  date : Nat
  signal_type : String
  close_price : Rat
  ma5 : Rat
  ma30 : Rat
deriving DecidableEq, Repr

/-- A row of the tqqq_prices table (the columns the core reads). -/
structure PriceRow where
  ticker : String
  date : Nat
  close : Rat
deriving DecidableEq, Repr

/-- Trailing simple moving average: pandas
rolling(window = w).mean() evaluated at row index i, which averages rows
i - w + 1 .. i. It is defined (non-NaN) exactly when w ≤ i + 1; callers below
only consult it under that guard. -/
def maAt (closes : List Rat) (w i : Nat) : Rat :=
  (((closes.drop (i + 1 - w)).take w).sum) / (w : Rat)

/-- The boolean column short_above of detect_crossovers:
MA_SHORT > MA_LONG at row i (pandas evaluates the strict comparison). -/
def shortAbove (closes : List Rat) (short long i : Nat) : Bool :=
  decide (maAt closes long i < maAt closes short i)

/-- Row i survives dropna() (both rolling means defined) and has a previous
surviving row, so that prev_short_above at i is not NaN. Since the NaN rows of
a rolling mean form an initial segment, the previous surviving row is row i - 1, and the
condition is short ≤ i ∧ long ≤ i. -/
def hasPrevRow (short long i : Nat) : Bool :=
  decide (short ≤ i) && decide (long ≤ i)

/-- Golden-cross test of detect_crossovers at row i:
short_above == True and prev_short_above == False (a NaN previous value
satisfies neither comparison, which hasPrevRow rules out). -/
def isGoldenAt (closes : List Rat) (short long i : Nat) : Bool :=
  hasPrevRow short long i && shortAbove closes short long i &&
    !(shortAbove closes short long (i - 1))

/-- Dead-cross test of detect_crossovers at row i:
short_above == False and prev_short_above == True. -/
def isDeadAt (closes : List Rat) (short long i : Nat) : Bool :=
  hasPrevRow short long i && !(shortAbove closes short long i) &&
    shortAbove closes short long (i - 1)

/-- The date column of row i of the frame. -/
def dateAt (rows : List (Nat × Rat)) (i : Nat) : Nat :=
  (rows.map Prod.fst).getD i 0

/-- The signal dict detect_crossovers appends for row i of the frame:
ticker, the row's date and close, the two rolling means, and the given
signal_type string. -/
def mkSignal (ticker kind : String) (rows : List (Nat × Rat)) (short long i : Nat) :
    Signal :=
  { ticker := ticker
    date := dateAt rows i
    signal_type := kind
    close_price := (rows.map Prod.snd).getD i 0
    ma5 := maAt (rows.map Prod.snd) short i
    ma30 := maAt (rows.map Prod.snd) long i }

/-- The golden-cross pass of detect_crossovers: the rows of the frame that
satisfy the golden test, in frame (ascending row) order. -/
def goldenList (short long : Nat) (ticker : String) (rows : List (Nat × Rat)) :
    List Signal :=
  ((List.range rows.length).filter
    (fun i => isGoldenAt (rows.map Prod.snd) short long i)).map
    (fun i => mkSignal ticker "GOLDEN_CROSS" rows short long i)

/-- The dead-cross pass of detect_crossovers, in frame order. -/
def deadList (short long : Nat) (ticker : String) (rows : List (Nat × Rat)) :
    List Signal :=
  ((List.range rows.length).filter
    (fun i => isDeadAt (rows.map Prod.snd) short long i)).map
    (fun i => mkSignal ticker "DEAD_CROSS" rows short long i)

/-- detect_crossovers from src/tqqq/signals.py, with the two window sizes made
explicit parameters (the code reads them from config). Returns [] when the
frame is shorter than the long window; otherwise appends every golden-cross
row (in date order) and then every dead-cross row (in date order), exactly as
the two iterrows loops do. -/
def detect_crossovers (short long : Nat) (ticker : String)
    (rows : List (Nat × Rat)) : List Signal :=
  if rows.length < long then []
  else goldenList short long ticker rows ++ deadList short long ticker rows

/-- The status dict of get_current_status, with the fields that are absent in
the INSUFFICIENT_DATA branch modelled as `none`. -/
structure StatusSnapshot where
  ticker : String
  status : String
  date : Option Nat
  close : Option Rat
  ma_short : Option Rat
  ma_long : Option Rat
  gap : Option Rat
deriving DecidableEq, Repr

/-- get_current_status from src/tqqq/signals.py with explicit window sizes:
INSUFFICIENT_DATA on a short frame, otherwise the comparison of the two
rolling means on the last row only. -/
def get_current_status (short long : Nat) (ticker : String)
    (rows : List (Nat × Rat)) : StatusSnapshot :=
  if rows.length < long then
    { ticker := ticker, status := "INSUFFICIENT_DATA"
      date := none, close := none, ma_short := none, ma_long := none, gap := none }
  else
    let closes := rows.map Prod.snd
    let i := rows.length - 1
    let sm := maAt closes short i
    let lm := maAt closes long i
    { ticker := ticker
      status := if lm < sm then "BULLISH" else "BEARISH"
      date := some ((rows.map Prod.fst).getD i 0)
      close := some (closes.getD i 0)
      ma_short := some sm
      ma_long := some lm
      gap := some (sm - lm) }

/-! ## Signal ledger (src/tqqq/database.py)

The crossover_signals table is modelled as the list of its rows in insertion
order. The autoincrement id and created_at columns play no role in any lookup
or count the core performs and are omitted from the row model. -/

/-- The existence lookup of get_new_signals:
SELECT 1 FROM crossover_signals WHERE ticker = ? AND date = ? AND signal_type = ?.
The same three columns form the UNIQUE key of the table, so this is also the
test INSERT OR IGNORE applies. -/
def keyPresent (tbl : List Signal) (t : String) (d : Nat) (k : String) : Bool :=
  tbl.any (fun r => r.ticker == t && r.date == d && r.signal_type == k)

/-- get_new_signals from src/tqqq/database.py: walk the candidate list and
keep, in order, every signal whose (ticker, date, signal_type) key is absent
from the table. The ticker compared is the function argument, the date and
signal_type come from the candidate dict. -/
def get_new_signals (tbl : List Signal) (t : String) : List Signal → List Signal
  | [] => []
  | s :: rest =>
    if keyPresent tbl t s.date s.signal_type then get_new_signals tbl t rest
    else s :: get_new_signals tbl t rest

/-- save_signals from src/tqqq/database.py: for each candidate run
INSERT OR IGNORE (append the row unless its UNIQUE key, checked against the
table as grown so far in this batch, already exists) and accumulate
cursor.rowcount, which is 1 for an insert and 0 for an ignore. The stored
ticker column is the function argument, as in the VALUES tuple of the code.
Returns the final table and the insert count. -/
def save_signals : List Signal → String → List Signal → List Signal × Nat
  | tbl, _, [] => (tbl, 0)
  | tbl, t, s :: rest =>
    if keyPresent tbl t s.date s.signal_type then save_signals tbl t rest
    else
      let r := save_signals (tbl ++ [{ s with ticker := t }]) t rest
      (r.1, r.2 + 1)

/-- load_prices from src/tqqq/database.py:
SELECT date, close FROM tqqq_prices WHERE ticker = ? ORDER BY date. -/
def load_prices (prices : List PriceRow) (t : String) : List (Nat × Rat) :=
  ((prices.filter (fun r => r.ticker == t)).map (fun r => (r.date, r.close))).mergeSort
    (fun a b => a.1 ≤ b.1)

/-- detect_crossovers as called on a database connection: it loads the price
frame for the ticker and scans it. -/
def detectDB (short long : Nat) (prices : List PriceRow) (t : String) : List Signal :=
  detect_crossovers short long t (load_prices prices t)


/-! ## Basic ledger lemmas -/

theorem get_new_signals_eq_filter (tbl : List Signal) (t : String) :
    ∀ l : List Signal,
      get_new_signals tbl t l =
        l.filter (fun s => !(keyPresent tbl t s.date s.signal_type))
  | [] => rfl
  | s :: rest => by
    simp only [get_new_signals, List.filter]
    cases h : keyPresent tbl t s.date s.signal_type with
    | true => simp [get_new_signals_eq_filter tbl t rest]
    | false => simp [get_new_signals_eq_filter tbl t rest]

theorem keyPresent_append_left (tbl ext : List Signal) (t : String) (d : Nat)
    (k : String) (h : keyPresent tbl t d k = true) :
    keyPresent (tbl ++ ext) t d k = true := by
  simp only [keyPresent, List.any_append, Bool.or_eq_true]
  exact Or.inl h

theorem save_signals_suffix (t : String) :
    ∀ (l tbl : List Signal), ∃ ext, (save_signals tbl t l).1 = tbl ++ ext
  | [], tbl => ⟨[], by simp [save_signals]⟩
  | s :: rest, tbl => by
    by_cases h : keyPresent tbl t s.date s.signal_type = true
    · obtain ⟨ext, hext⟩ := save_signals_suffix t rest tbl
      exact ⟨ext, by simp [save_signals, h, hext]⟩
    · obtain ⟨ext, hext⟩ :=
        save_signals_suffix t rest (tbl ++ [{ s with ticker := t }])
      refine ⟨[{ s with ticker := t }] ++ ext, ?_⟩
      simp only [save_signals, if_neg h]
      rw [hext, List.append_assoc]

theorem keyPresent_save_mono (tbl : List Signal) (t u : String) (l : List Signal)
    (d : Nat) (k : String) (h : keyPresent tbl t d k = true) :
    keyPresent (save_signals tbl u l).1 t d k = true := by
  obtain ⟨ext, hext⟩ := save_signals_suffix u l tbl
  rw [hext]
  exact keyPresent_append_left tbl ext t d k h

theorem save_signals_key_present (t : String) :
    ∀ (l tbl : List Signal), ∀ s ∈ l,
      keyPresent (save_signals tbl t l).1 t s.date s.signal_type = true := by
  intro l
  induction l with
  | nil => intro tbl s hs; cases hs
  | cons a rest ih =>
    intro tbl s hs
    by_cases h : keyPresent tbl t a.date a.signal_type = true
    · simp only [save_signals, if_pos h]
      rcases List.mem_cons.mp hs with rfl | hmem
      · exact keyPresent_save_mono tbl t t rest s.date s.signal_type h
      · exact ih tbl s hmem
    · simp only [save_signals, if_neg h]
      rcases List.mem_cons.mp hs with rfl | hmem
      · refine keyPresent_save_mono _ t t rest s.date s.signal_type ?_
        simp [keyPresent, List.any_append]
      · exact ih (tbl ++ [{ a with ticker := t }]) s hmem

/-! ## Claim theorems about the ledger -/

/-- C5: get_new_signals returns exactly the candidates whose
(ticker, date, signal_type) key is absent from the table, as a subsequence of
the input (input order preserved). -/
theorem get_new_signals_filters_absent_keys (tbl : List Signal) (t : String)
    (cands : List Signal) :
    get_new_signals tbl t cands =
      cands.filter (fun s => !(keyPresent tbl t s.date s.signal_type)) ∧
    (get_new_signals tbl t cands).Sublist cands := by
  refine ⟨get_new_signals_eq_filter tbl t cands, ?_⟩
  rw [get_new_signals_eq_filter tbl t cands]
  exact List.filter_sublist cands

/-- C3: filter the candidates, record the survivors, filter the same
candidates again: the second filter returns the empty list, so the
detect/filter/record cycle converges with unchanged history. -/
theorem filter_record_filter_converges (tbl : List Signal) (t : String)
    (cands : List Signal) :
    get_new_signals (save_signals tbl t (get_new_signals tbl t cands)).1 t cands
      = [] := by
  rw [get_new_signals_eq_filter]
  rw [List.filter_eq_nil_iff]
  intro s hs
  simp only [Bool.not_eq_true', Bool.not_eq_false]
  by_cases h : keyPresent tbl t s.date s.signal_type = true
  · exact keyPresent_save_mono tbl t t _ s.date s.signal_type h
  · refine save_signals_key_present t _ tbl s ?_
    rw [get_new_signals_eq_filter]
    refine List.mem_filter.mpr ⟨hs, ?_⟩
    simp [Bool.not_eq_true] at h ⊢
    exact h

/-- C4: INSERT OR IGNORE semantics of save_signals. When the key is already in
the table the call is a no-op returning count 0; when it is fresh the first
call returns 1, the immediately repeated call returns 0 and leaves the table
unchanged, and the table holds exactly one row with that key. -/
theorem save_signals_idempotent_key (tbl : List Signal) (t : String) (s : Signal) :
    (keyPresent tbl t s.date s.signal_type = true →
      save_signals tbl t [s] = (tbl, 0)) ∧
    (keyPresent tbl t s.date s.signal_type = false →
      (save_signals tbl t [s]).2 = 1 ∧
      (save_signals (save_signals tbl t [s]).1 t [s]).2 = 0 ∧
      (save_signals (save_signals tbl t [s]).1 t [s]).1 =
        (save_signals tbl t [s]).1 ∧
      ((save_signals tbl t [s]).1.filter (fun r =>
        r.ticker == t && r.date == s.date && r.signal_type == s.signal_type)).length
        = 1) := by
  constructor
  · intro h
    simp [save_signals, h]
  · intro h
    have hfirst : save_signals tbl t [s] = (tbl ++ [{ s with ticker := t }], 1) := by
      simp [save_signals, h]
    have hkey : keyPresent (tbl ++ [{ s with ticker := t }]) t s.date s.signal_type
        = true := by
      simp [keyPresent, List.any_append]
    refine ⟨by rw [hfirst], ?_, ?_, ?_⟩
    · rw [hfirst]
      simp [save_signals, hkey]
    · rw [hfirst]
      simp [save_signals, hkey]
    · rw [hfirst]
      have htbl : tbl.filter (fun r =>
          r.ticker == t && r.date == s.date && r.signal_type == s.signal_type) = [] := by
        rw [List.filter_eq_nil_iff]
        intro r hr
        intro hcontra
        have : keyPresent tbl t s.date s.signal_type = true := by
          simp only [keyPresent, List.any_eq_true]
          exact ⟨r, hr, hcontra⟩
        rw [h] at this
        cases this
      simp [List.filter_append, htbl]

/-- Witness for C4 at a concrete fresh signal over the empty table. -/
theorem save_signals_idempotent_key_witness :
    (save_signals [] "TQQQ" [⟨"TQQQ", 7, "GOLDEN_CROSS", 50, 51, 49⟩]).2 = 1 ∧
    (save_signals (save_signals [] "TQQQ"
      [⟨"TQQQ", 7, "GOLDEN_CROSS", 50, 51, 49⟩]).1 "TQQQ"
      [⟨"TQQQ", 7, "GOLDEN_CROSS", 50, 51, 49⟩]).2 = 0 ∧
    (save_signals (save_signals [] "TQQQ"
      [⟨"TQQQ", 7, "GOLDEN_CROSS", 50, 51, 49⟩]).1 "TQQQ"
      [⟨"TQQQ", 7, "GOLDEN_CROSS", 50, 51, 49⟩]).1 =
      (save_signals [] "TQQQ" [⟨"TQQQ", 7, "GOLDEN_CROSS", 50, 51, 49⟩]).1 ∧
    ((save_signals [] "TQQQ" [⟨"TQQQ", 7, "GOLDEN_CROSS", 50, 51, 49⟩]).1.filter
      (fun r => r.ticker == "TQQQ" && r.date == 7 && r.signal_type == "GOLDEN_CROSS")).length
      = 1 :=
  (save_signals_idempotent_key [] "TQQQ" ⟨"TQQQ", 7, "GOLDEN_CROSS", 50, 51, 49⟩).2 rfl

/-- C10: get_new_signals checks candidates only against the table, not against
earlier candidates of the same call: two same-key candidates both survive the
filter, and saving the pair inserts exactly one row and returns count 1. -/
theorem get_new_signals_no_intra_batch_dedup (tbl : List Signal) (t : String)
    (s1 s2 : Signal) (hdate : s1.date = s2.date)
    (hkind : s1.signal_type = s2.signal_type)
    (habsent : keyPresent tbl t s1.date s1.signal_type = false) :
    get_new_signals tbl t [s1, s2] = [s1, s2] ∧
    (save_signals tbl t [s1, s2]).2 = 1 ∧
    ((save_signals tbl t [s1, s2]).1.filter (fun r =>
      r.ticker == t && r.date == s1.date && r.signal_type == s1.signal_type)).length
      = 1 := by
  have habsent2 : keyPresent tbl t s2.date s2.signal_type = false := by
    rw [← hdate, ← hkind]; exact habsent
  have hkey : keyPresent (tbl ++ [{ s1 with ticker := t }]) t s2.date s2.signal_type
      = true := by
    simp [keyPresent, List.any_append, ← hdate, ← hkind]
  refine ⟨?_, ?_, ?_⟩
  · simp [get_new_signals, habsent, habsent2]
  · simp [save_signals, habsent, hkey]
  · have htbl : tbl.filter (fun r =>
        r.ticker == t && r.date == s1.date && r.signal_type == s1.signal_type) = [] := by
      rw [List.filter_eq_nil_iff]
      intro r hr hcontra
      have : keyPresent tbl t s1.date s1.signal_type = true := by
        simp only [keyPresent, List.any_eq_true]
        exact ⟨r, hr, hcontra⟩
      rw [habsent] at this
      cases this
    simp [save_signals, habsent, hkey, List.filter_append, htbl]

/-- Witness for C10: two candidates with the same key but different payloads
over the empty table. -/
theorem get_new_signals_no_intra_batch_dedup_witness :
    get_new_signals [] "TQQQ" [⟨"TQQQ", 7, "GOLDEN_CROSS", 50, 51, 49⟩,
      ⟨"TQQQ", 7, "GOLDEN_CROSS", 60, 61, 59⟩] =
      [⟨"TQQQ", 7, "GOLDEN_CROSS", 50, 51, 49⟩,
        ⟨"TQQQ", 7, "GOLDEN_CROSS", 60, 61, 59⟩] ∧
    (save_signals [] "TQQQ" [⟨"TQQQ", 7, "GOLDEN_CROSS", 50, 51, 49⟩,
      ⟨"TQQQ", 7, "GOLDEN_CROSS", 60, 61, 59⟩]).2 = 1 ∧
    ((save_signals [] "TQQQ" [⟨"TQQQ", 7, "GOLDEN_CROSS", 50, 51, 49⟩,
      ⟨"TQQQ", 7, "GOLDEN_CROSS", 60, 61, 59⟩]).1.filter (fun r =>
      r.ticker == "TQQQ" && r.date == 7 && r.signal_type == "GOLDEN_CROSS")).length
      = 1 :=
  get_new_signals_no_intra_batch_dedup [] "TQQQ"
    ⟨"TQQQ", 7, "GOLDEN_CROSS", 50, 51, 49⟩
    ⟨"TQQQ", 7, "GOLDEN_CROSS", 60, 61, 59⟩ rfl rfl rfl

/-- C6: a frame shorter than the long window is not an error: detect returns
the empty list and status the bare INSUFFICIENT_DATA snapshot with no MA
fields populated. -/
theorem insufficient_history_not_an_error (short long : Nat) (t : String)
    (rows : List (Nat × Rat)) (h : rows.length < long) :
    detect_crossovers short long t rows = [] ∧
    get_current_status short long t rows =
      { ticker := t, status := "INSUFFICIENT_DATA", date := none, close := none,
        ma_short := none, ma_long := none, gap := none } := by
  constructor
  · simp [detect_crossovers, h]
  · simp [get_current_status, h]

/-- Witness for C6: a one-row frame against the configured windows. -/
theorem insufficient_history_not_an_error_witness :
    detect_crossovers 5 30 "TQQQ" [(0, 50)] = [] ∧
    get_current_status 5 30 "TQQQ" [(0, 50)] =
      { ticker := "TQQQ", status := "INSUFFICIENT_DATA", date := none, close := none,
        ma_short := none, ma_long := none, gap := none } :=
  insufficient_history_not_an_error 5 30 "TQQQ" [(0, 50)] (by decide)

/-- Modelled from the spec: construction-time validation of the window
configuration, which is absent from src (src/tqqq/config.py fixes
MA_SHORT = 5 and MA_LONG = 30 as module-level literals and performs no check;
test_config.py only asserts the values). The spec requires the invariant
short_window < long_window to be enforced once at construction, rejecting an
invalid pair with a fatal InvalidConfiguration error before any detect or
status call can run with it. -/
def validateConfig (short long : Nat) : Except String (Nat × Nat) :=
  if short < long then Except.ok (short, long)
  else Except.error "InvalidConfiguration"

/-- C8: construction fails fast with InvalidConfiguration exactly when
short_window ≥ long_window, any pair it accepts satisfies the invariant (so
no detect or status call runs with an invalid pair), and the shipped
constants MA_SHORT = 5 < MA_LONG = 30 pass validation. -/
theorem config_invariant_enforced_at_construction (short long : Nat) :
    (long ≤ short → validateConfig short long = Except.error "InvalidConfiguration") ∧
    (∀ p : Nat × Nat, validateConfig short long = Except.ok p → p.1 < p.2) ∧
    validateConfig MA_SHORT MA_LONG = Except.ok (MA_SHORT, MA_LONG) ∧
    MA_SHORT < MA_LONG := by
  refine ⟨?_, ?_, rfl, by decide⟩
  · intro h
    rw [validateConfig, if_neg (by omega)]
  · intro p hp
    by_cases hsl : short < long
    · rw [validateConfig, if_pos hsl] at hp
      cases hp
      exact hsl
    · rw [validateConfig, if_neg hsl] at hp
      cases hp

/-- Witness for C8: the inverted pair (30, 5) is rejected, the shipped pair
is accepted. -/
theorem config_invariant_enforced_at_construction_witness :
    validateConfig 30 5 = Except.error "InvalidConfiguration" ∧
    validateConfig MA_SHORT MA_LONG = Except.ok (MA_SHORT, MA_LONG) :=
  ⟨(config_invariant_enforced_at_construction 30 5).1 (by decide),
    (config_invariant_enforced_at_construction 30 5).2.2.1⟩

/-! ## Ticker isolation (C9)

The polling cycle interleaves, per ticker, a detect over the stored prices, a
get_new_signals filter and a save_signals record, all sharing one sqlite
database. The trace model below runs an arbitrary interleaving against the
shared tables and records each operation's observable result. -/

/-- One core operation of a polling cycle, carrying its ticker argument. -/
inductive Op where
  | detect (ticker : String)
  | filterNew (ticker : String) (cands : List Signal)
  | record (ticker : String) (cands : List Signal)

/-- The ticker argument of an operation. -/
def Op.ticker : Op → String
  | .detect t => t
  | .filterNew t _ => t
  | .record t _ => t

/-- The observable result of one operation: a signal list (detect, filterNew)
or an insert count (record). -/
inductive Out where
  | sigs (l : List Signal)
  | count (n : Nat)
deriving DecidableEq, Repr

/-- Apply one operation to the signals table: detect reads only the prices
table, filterNew reads the signals table, record writes it. Returns the new
signals table and the operation's result. -/
def applyOp (short long : Nat) (prices : List PriceRow) (tbl : List Signal) :
    Op → List Signal × Out
  | .detect t => (tbl, Out.sigs (detectDB short long prices t))
  | .filterNew t c => (tbl, Out.sigs (get_new_signals tbl t c))
  | .record t c => ((save_signals tbl t c).1, Out.count (save_signals tbl t c).2)

/-- Run a sequence of operations over the shared tables, collecting each
operation's ticker together with its result. -/
def runOps (short long : Nat) (prices : List PriceRow) :
    List Signal → List Op → List (String × Out)
  | _, [] => []
  | tbl, op :: rest =>
    (op.ticker, (applyOp short long prices tbl op).2) ::
      runOps short long prices (applyOp short long prices tbl op).1 rest

/-- The rows of the signals table belonging to one ticker, in table order. -/
def tickerRows (a : String) (tbl : List Signal) : List Signal :=
  tbl.filter (fun r => r.ticker == a)

theorem keyPresent_tickerRows (a : String) (d : Nat) (k : String)
    (tbl : List Signal) :
    keyPresent (tickerRows a tbl) a d k = keyPresent tbl a d k := by
  induction tbl with
  | nil => rfl
  | cons r tl ih =>
    by_cases h : (r.ticker == a) = true
    · simp only [tickerRows, List.filter_cons, h, if_true, keyPresent,
        List.any_cons] at ih ⊢
      rw [ih]
    · have h' : (r.ticker == a) = false := by simpa using h
      simp only [tickerRows, List.filter_cons, h', Bool.false_eq_true, if_false,
        keyPresent, List.any_cons, Bool.false_and, Bool.false_or] at ih ⊢
      exact ih

theorem get_new_signals_tickerRows (a : String) (tbl : List Signal)
    (c : List Signal) :
    get_new_signals (tickerRows a tbl) a c = get_new_signals tbl a c := by
  rw [get_new_signals_eq_filter, get_new_signals_eq_filter]
  apply List.filter_congr
  intro s _
  rw [keyPresent_tickerRows]

theorem tickerRows_append (a : String) (tbl ext : List Signal) :
    tickerRows a (tbl ++ ext) = tickerRows a tbl ++ tickerRows a ext := by
  simp [tickerRows]

theorem save_signals_tickerRows_same (a : String) :
    ∀ (c : List Signal) (tbl : List Signal),
      tickerRows a (save_signals tbl a c).1 =
        (save_signals (tickerRows a tbl) a c).1 ∧
      (save_signals tbl a c).2 = (save_signals (tickerRows a tbl) a c).2
  | [], tbl => ⟨rfl, rfl⟩
  | s :: rest, tbl => by
    have hkey := keyPresent_tickerRows a s.date s.signal_type tbl
    by_cases h : keyPresent tbl a s.date s.signal_type = true
    · have h2 : keyPresent (tickerRows a tbl) a s.date s.signal_type = true := by
        rw [hkey]; exact h
      simp only [save_signals, if_pos h, if_pos h2]
      exact save_signals_tickerRows_same a rest tbl
    · have h2 : ¬ keyPresent (tickerRows a tbl) a s.date s.signal_type = true := by
        rw [hkey]; exact h
      have hrow : tickerRows a (tbl ++ [{ s with ticker := a }]) =
          tickerRows a tbl ++ [{ s with ticker := a }] := by
        rw [tickerRows_append]
        simp [tickerRows]
      have ih := save_signals_tickerRows_same a rest (tbl ++ [{ s with ticker := a }])
      rw [hrow] at ih
      simp only [save_signals, if_neg h, if_neg h2]
      exact ⟨ih.1, by rw [ih.2]⟩

theorem save_signals_tickerRows_other (a t : String) (hne : (t == a) = false) :
    ∀ (c : List Signal) (tbl : List Signal),
      tickerRows a (save_signals tbl t c).1 = tickerRows a tbl
  | [], tbl => rfl
  | s :: rest, tbl => by
    by_cases h : keyPresent tbl t s.date s.signal_type = true
    · simp only [save_signals, if_pos h]
      exact save_signals_tickerRows_other a t hne rest tbl
    · have hrow : tickerRows a (tbl ++ [{ s with ticker := t }]) = tickerRows a tbl := by
        rw [tickerRows_append]
        simp [tickerRows, hne]
      simp only [save_signals, if_neg h]
      exact (save_signals_tickerRows_other a t hne rest
        (tbl ++ [{ s with ticker := t }])).trans hrow

theorem runOps_proj (short long : Nat) (prices : List PriceRow) (a : String) :
    ∀ (ops : List Op) (tbl1 tbl2 : List Signal),
      tickerRows a tbl1 = tickerRows a tbl2 →
      (runOps short long prices tbl1 ops).filter (fun p => p.1 == a) =
        runOps short long prices tbl2 (ops.filter (fun o => Op.ticker o == a))
  | [], _, _, _ => rfl
  | op :: rest, tbl1, tbl2, hproj => by
    cases op with
    | detect t =>
      by_cases ht : (t == a) = true
      · have hta : t = a := eq_of_beq ht
        subst hta
        simp only [runOps, applyOp, Op.ticker, List.filter_cons, beq_self_eq_true,
          eq_self_iff_true, if_true]
        exact congrArg (List.cons _) (runOps_proj short long prices t rest tbl1 tbl2 hproj)
      · have ht' : (t == a) = false := by simpa using ht
        simp only [runOps, applyOp, Op.ticker, List.filter_cons, ht',
          Bool.false_eq_true, if_false]
        exact runOps_proj short long prices a rest tbl1 tbl2 hproj
    | filterNew t c =>
      by_cases ht : (t == a) = true
      · have hta : t = a := eq_of_beq ht
        subst hta
        have hout : get_new_signals tbl1 t c = get_new_signals tbl2 t c := by
          rw [← get_new_signals_tickerRows t tbl1 c, hproj,
            get_new_signals_tickerRows t tbl2 c]
        simp only [runOps, applyOp, Op.ticker, List.filter_cons, beq_self_eq_true,
          eq_self_iff_true, if_true]
        rw [hout]
        exact congrArg (List.cons _) (runOps_proj short long prices t rest tbl1 tbl2 hproj)
      · have ht' : (t == a) = false := by simpa using ht
        simp only [runOps, applyOp, Op.ticker, List.filter_cons, ht',
          Bool.false_eq_true, if_false]
        exact runOps_proj short long prices a rest tbl1 tbl2 hproj
    | record t c =>
      by_cases ht : (t == a) = true
      · have hta : t = a := eq_of_beq ht
        subst hta
        have h1 := save_signals_tickerRows_same t c tbl1
        have h2 := save_signals_tickerRows_same t c tbl2
        have hstate : tickerRows t (save_signals tbl1 t c).1 =
            tickerRows t (save_signals tbl2 t c).1 := by
          rw [h1.1, h2.1, hproj]
        have hcount : (save_signals tbl1 t c).2 = (save_signals tbl2 t c).2 := by
          rw [h1.2, h2.2, hproj]
        simp only [runOps, applyOp, Op.ticker, List.filter_cons, beq_self_eq_true,
          eq_self_iff_true, if_true]
        rw [hcount]
        exact congrArg (List.cons _) (runOps_proj short long prices t rest _ _ hstate)
      · have ht' : (t == a) = false := by simpa using ht
        have hstate : tickerRows a (save_signals tbl1 t c).1 = tickerRows a tbl2 :=
          (save_signals_tickerRows_other a t ht' c tbl1).trans hproj
        simp only [runOps, applyOp, Op.ticker, List.filter_cons, ht',
          Bool.false_eq_true, if_false]
        exact runOps_proj short long prices a rest _ tbl2 hstate

/-- C9: ticker isolation. In any interleaved run of detect / filterNew /
record operations over shared price and signal tables, the results observed
by the operations of one ticker are exactly the results of running only that
ticker's operations, in order, from the same starting state: no other
ticker's operations or rows affect them. -/
theorem ticker_isolation (short long : Nat) (prices : List PriceRow)
    (tbl : List Signal) (ops : List Op) (a : String) :
    (runOps short long prices tbl ops).filter (fun p => p.1 == a) =
      runOps short long prices tbl (ops.filter (fun o => Op.ticker o == a)) :=
  runOps_proj short long prices a ops tbl tbl rfl

/-! ## Transition structure of detect (C1, C2, C7)

detect_crossovers scans the frame twice, once per signal kind. The
chronological view of the same scan is the list of transition rows in frame
order, each mapped to the signal the code emits for it. -/

/-- Row i is a transition row: the short-above boolean is defined at i and
i - 1 and flips between them (in either direction). -/
def isTransAt (closes : List Rat) (short long i : Nat) : Bool :=
  isGoldenAt closes short long i || isDeadAt closes short long i

/-- The signal detect_crossovers emits for transition row i. -/
def transSignal (short long : Nat) (ticker : String) (rows : List (Nat × Rat))
    (i : Nat) : Signal :=
  if isGoldenAt (rows.map Prod.snd) short long i then
    mkSignal ticker "GOLDEN_CROSS" rows short long i
  else mkSignal ticker "DEAD_CROSS" rows short long i

/-- The chronological signal sequence: one signal per transition row, in
ascending row order. -/
def transList (short long : Nat) (ticker : String) (rows : List (Nat × Rat)) :
    List Signal :=
  ((List.range rows.length).filter
    (fun i => isTransAt (rows.map Prod.snd) short long i)).map
    (transSignal short long ticker rows)

theorem isGoldenAt_isDeadAt_not_both (closes : List Rat) (short long i : Nat) :
    ¬(isGoldenAt closes short long i = true ∧ isDeadAt closes short long i = true) := by
  rintro ⟨hg, hd⟩
  simp only [isGoldenAt, isDeadAt, Bool.and_eq_true] at hg hd
  rw [hg.1.2] at hd
  simp at hd

theorem isGoldenAt_false_of_lt_long (closes : List Rat) (short long i : Nat)
    (h : i < long) : isGoldenAt closes short long i = false := by
  have hni : ¬ long ≤ i := Nat.not_le.mpr h
  simp [isGoldenAt, hasPrevRow, hni]

theorem isDeadAt_false_of_lt_long (closes : List Rat) (short long i : Nat)
    (h : i < long) : isDeadAt closes short long i = false := by
  have hni : ¬ long ≤ i := Nat.not_le.mpr h
  simp [isDeadAt, hasPrevRow, hni]

theorem goldenList_eq_nil_of_short (short long : Nat) (t : String)
    (rows : List (Nat × Rat)) (h : rows.length < long) :
    goldenList short long t rows = [] := by
  rw [goldenList, List.map_eq_nil_iff, List.filter_eq_nil_iff]
  intro i hi
  have : i < long := lt_trans (List.mem_range.mp hi) h
  simp [isGoldenAt_false_of_lt_long (rows.map Prod.snd) short long i this]

theorem deadList_eq_nil_of_short (short long : Nat) (t : String)
    (rows : List (Nat × Rat)) (h : rows.length < long) :
    deadList short long t rows = [] := by
  rw [deadList, List.map_eq_nil_iff, List.filter_eq_nil_iff]
  intro i hi
  have : i < long := lt_trans (List.mem_range.mp hi) h
  simp [isDeadAt_false_of_lt_long (rows.map Prod.snd) short long i this]

/-- detect_crossovers is the golden pass followed by the dead pass, also under
the short-frame guard (both passes are then empty). -/
theorem detect_crossovers_eq_append (short long : Nat) (t : String)
    (rows : List (Nat × Rat)) :
    detect_crossovers short long t rows =
      goldenList short long t rows ++ deadList short long t rows := by
  rw [detect_crossovers]
  by_cases h : rows.length < long
  · rw [if_pos h, goldenList_eq_nil_of_short short long t rows h,
      deadList_eq_nil_of_short short long t rows h]
    rfl
  · rw [if_neg h]

theorem filter_disjoint_map_perm {α β : Type} (p q : α → Bool) (f g : α → β)
    (hdisj : ∀ x, ¬(p x = true ∧ q x = true)) :
    ∀ l : List α,
      ((l.filter p).map f ++ (l.filter q).map g).Perm
        ((l.filter (fun x => p x || q x)).map (fun x => if p x then f x else g x))
  | [] => List.Perm.refl _
  | x :: l => by
    by_cases hp : p x = true
    · have hq : q x = false := by
        cases hqq : q x
        · rfl
        · exact absurd ⟨hp, hqq⟩ (hdisj x)
      simp only [List.filter_cons, hp, hq, if_true, Bool.true_or, List.map_cons,
        List.cons_append, eq_self_iff_true, Bool.false_eq_true, if_false]
      exact (filter_disjoint_map_perm p q f g hdisj l).cons (f x)
    · have hp' : p x = false := by simpa using hp
      by_cases hq : q x = true
      · simp only [List.filter_cons, hp', hq, Bool.false_eq_true, if_false,
          Bool.false_or, if_true, eq_self_iff_true, List.map_cons]
        exact List.perm_middle.trans
          ((filter_disjoint_map_perm p q f g hdisj l).cons (g x))
      · have hq' : q x = false := by simpa using hq
        simp only [List.filter_cons, hp', hq', Bool.false_eq_true, if_false,
          Bool.false_or]
        exact filter_disjoint_map_perm p q f g hdisj l

/-- The concatenated output of detect_crossovers is a permutation of the
chronological transition sequence. -/
theorem detect_perm_transList (short long : Nat) (t : String)
    (rows : List (Nat × Rat)) :
    (detect_crossovers short long t rows).Perm (transList short long t rows) := by
  rw [detect_crossovers_eq_append, goldenList, deadList, transList]
  have h := filter_disjoint_map_perm
    (fun i => isGoldenAt (rows.map Prod.snd) short long i)
    (fun i => isDeadAt (rows.map Prod.snd) short long i)
    (fun i => mkSignal t "GOLDEN_CROSS" rows short long i)
    (fun i => mkSignal t "DEAD_CROSS" rows short long i)
    (fun i => isGoldenAt_isDeadAt_not_both (rows.map Prod.snd) short long i)
    (List.range rows.length)
  exact h

theorem filter_range_getLast_max (p : Nat → Bool) :
    ∀ (n : Nat) (j : Nat), (((List.range n).filter p).getLast? = some j) →
      p j = true ∧ j < n ∧ ∀ k, j < k → k < n → p k = false
  | 0, j => by
    intro h
    simp [List.range_zero] at h
  | n + 1, j => by
    intro h
    rw [List.range_succ, List.filter_append] at h
    by_cases hp : p n = true
    · have hfil : List.filter p [n] = [n] := by simp [hp]
      rw [hfil, List.getLast?_concat] at h
      obtain rfl : n = j := by simpa using h
      exact ⟨hp, by omega, fun k hk1 hk2 => by omega⟩
    · have hfil : List.filter p [n] = [] := by simp [hp]
      rw [hfil, List.append_nil] at h
      obtain ⟨hpj, hjn, hbtw⟩ := filter_range_getLast_max p n j h
      refine ⟨hpj, by omega, fun k hk1 hk2 => ?_⟩
      by_cases hkn : k < n
      · exact hbtw k hk1 hkn
      · have : k = n := by omega
        subst this
        simpa using hp

theorem chain'_filter_range (p : Nat → Bool) (R : Nat → Nat → Prop) :
    ∀ n : Nat, (∀ i j, i < n → j < n → p i = true → p j = true → i < j →
      (∀ k, i < k → k < j → p k = false) → R i j) →
      List.Chain' R ((List.range n).filter p)
  | 0, _ => by simp
  | n + 1, h => by
    rw [List.range_succ, List.filter_append]
    by_cases hp : p n = true
    · have hfil : List.filter p [n] = [n] := by simp [hp]
      rw [hfil, List.chain'_append]
      refine ⟨chain'_filter_range p R n
        (fun i j hi hj => h i j (by omega) (by omega)),
        List.chain'_singleton n, ?_⟩
      intro x hx y hy
      simp only [List.head?_cons, Option.mem_def, Option.some.injEq] at hy
      subst hy
      rw [Option.mem_def] at hx
      obtain ⟨hpx, hxn, hbtw⟩ := filter_range_getLast_max p n x hx
      exact h x n (by omega) (by omega) hpx hp hxn hbtw
    · have hfil : List.filter p [n] = [] := by simp [hp]
      rw [hfil, List.append_nil]
      exact chain'_filter_range p R n (fun i j hi hj => h i j (by omega) (by omega))

theorem dateAt_lt_of_lt (rows : List (Nat × Rat))
    (hdates : List.Chain' (· < ·) (rows.map Prod.fst)) (i j : Nat)
    (hij : i < j) (hjn : j < rows.length) : dateAt rows i < dateAt rows j := by
  have hpw : List.Pairwise (· < ·) (rows.map Prod.fst) :=
    List.chain'_iff_pairwise.mp hdates
  have hin : i < (rows.map Prod.fst).length := by
    rw [List.length_map]; omega
  have hjn' : j < (rows.map Prod.fst).length := by
    rw [List.length_map]; omega
  have hget := List.pairwise_iff_get.mp hpw ⟨i, hin⟩ ⟨j, hjn'⟩ (by simpa using hij)
  rw [dateAt, dateAt, List.getD_eq_get _ _ hin, List.getD_eq_get _ _ hjn']
  exact hget

theorem goldenList_dates_ascending (short long : Nat) (t : String)
    (rows : List (Nat × Rat)) (hdates : List.Chain' (· < ·) (rows.map Prod.fst)) :
    List.Chain' (· < ·) ((goldenList short long t rows).map (fun s => s.date)) := by
  rw [goldenList, List.map_map]
  have hcomp : ((fun s => s.date) ∘
      (fun i => mkSignal t "GOLDEN_CROSS" rows short long i)) =
      fun i => dateAt rows i := rfl
  rw [hcomp, List.chain'_map]
  apply chain'_filter_range _ _ rows.length
  intro i j hi hj _ _ hij _
  exact dateAt_lt_of_lt rows hdates i j hij hj

theorem deadList_dates_ascending (short long : Nat) (t : String)
    (rows : List (Nat × Rat)) (hdates : List.Chain' (· < ·) (rows.map Prod.fst)) :
    List.Chain' (· < ·) ((deadList short long t rows).map (fun s => s.date)) := by
  rw [deadList, List.map_map]
  have hcomp : ((fun s => s.date) ∘
      (fun i => mkSignal t "DEAD_CROSS" rows short long i)) =
      fun i => dateAt rows i := rfl
  rw [hcomp, List.chain'_map]
  apply chain'_filter_range _ _ rows.length
  intro i j hi hj _ _ hij _
  exact dateAt_lt_of_lt rows hdates i j hij hj

theorem hasPrevRow_of_trans (closes : List Rat) (short long i : Nat)
    (h : isTransAt closes short long i = true) : hasPrevRow short long i = true := by
  simp only [isTransAt, Bool.or_eq_true, isGoldenAt, isDeadAt,
    Bool.and_eq_true] at h
  rcases h with h | h
  · exact h.1.1
  · exact h.1.1

theorem not_trans_eq_prev (closes : List Rat) (short long k : Nat)
    (hprev : hasPrevRow short long k = true)
    (hnt : isTransAt closes short long k = false) :
    shortAbove closes short long k = shortAbove closes short long (k - 1) := by
  simp only [isTransAt, Bool.or_eq_false_iff, isGoldenAt, isDeadAt, hprev,
    Bool.true_and] at hnt
  cases h : shortAbove closes short long k <;>
    cases h' : shortAbove closes short long (k - 1) <;>
      simp [h, h'] at hnt ⊢

theorem shortAbove_const_of_no_trans (closes : List Rat) (short long i : Nat)
    (hprev : hasPrevRow short long i = true) :
    ∀ m : Nat, (∀ k, i < k → k ≤ i + m → isTransAt closes short long k = false) →
      shortAbove closes short long (i + m) = shortAbove closes short long i
  | 0, _ => rfl
  | m + 1, h => by
    have hk : isTransAt closes short long (i + (m + 1)) = false :=
      h (i + (m + 1)) (by omega) (by omega)
    have hprev' : hasPrevRow short long (i + (m + 1)) = true := by
      simp only [hasPrevRow, Bool.and_eq_true, decide_eq_true_eq] at hprev ⊢
      omega
    have heq := not_trans_eq_prev closes short long (i + (m + 1)) hprev' hk
    have h1 : i + (m + 1) - 1 = i + m := by omega
    rw [h1] at heq
    rw [heq]
    exact shortAbove_const_of_no_trans closes short long i hprev m
      (fun k hk1 hk2 => h k hk1 (by omega))

theorem isGoldenAt_eq_shortAbove_of_trans (closes : List Rat) (short long i : Nat)
    (htr : isTransAt closes short long i = true) :
    isGoldenAt closes short long i = shortAbove closes short long i := by
  cases h : shortAbove closes short long i
  · simp [isGoldenAt, h]
  · simp only [isTransAt, Bool.or_eq_true] at htr
    rcases htr with hg | hd
    · rw [hg]
    · simp [isDeadAt, h] at hd

theorem adjacent_trans_kinds_differ (closes : List Rat) (short long i j : Nat)
    (hi : isTransAt closes short long i = true)
    (hj : isTransAt closes short long j = true) (hij : i < j)
    (hbtw : ∀ k, i < k → k < j → isTransAt closes short long k = false) :
    isGoldenAt closes short long j = !(isGoldenAt closes short long i) := by
  have hprevi := hasPrevRow_of_trans closes short long i hi
  have hprevj := hasPrevRow_of_trans closes short long j hj
  have hconst : shortAbove closes short long (j - 1) =
      shortAbove closes short long i := by
    have h1 : j - 1 = i + (j - 1 - i) := by omega
    rw [h1]
    exact shortAbove_const_of_no_trans closes short long i hprevi (j - 1 - i)
      (fun k hk1 hk2 => hbtw k hk1 (by omega))
  have hj0 := hj
  have hflip : shortAbove closes short long j =
      !(shortAbove closes short long (j - 1)) := by
    simp only [isTransAt, Bool.or_eq_true, isGoldenAt, isDeadAt, hprevj,
      Bool.true_and, Bool.and_eq_true] at hj
    cases hsj : shortAbove closes short long j <;>
      cases hsj' : shortAbove closes short long (j - 1) <;>
        simp [hsj, hsj'] at hj ⊢
  rw [isGoldenAt_eq_shortAbove_of_trans closes short long j hj0,
    isGoldenAt_eq_shortAbove_of_trans closes short long i hi, hflip, hconst]

theorem transList_alternates (short long : Nat) (t : String)
    (rows : List (Nat × Rat)) :
    List.Chain' (fun s1 s2 => s1.signal_type ≠ s2.signal_type)
      (transList short long t rows) := by
  rw [transList, List.chain'_map]
  apply chain'_filter_range _ _ rows.length
  intro i j _ _ hpi hpj hij hbtw
  have hdiff := adjacent_trans_kinds_differ (rows.map Prod.snd) short long i j
    hpi hpj hij hbtw
  cases hgi : isGoldenAt (rows.map Prod.snd) short long i
  · rw [hgi] at hdiff
    simp only [Bool.not_false] at hdiff
    simp [transSignal, hgi, hdiff, mkSignal]
  · rw [hgi] at hdiff
    simp only [Bool.not_true] at hdiff
    simp [transSignal, hgi, hdiff, mkSignal]

/-- C1 (amended): detect_crossovers returns the golden-cross signals in
ascending date order followed by the dead-cross signals in ascending date
order, with one signal per transition (the output is a permutation of the
chronological transition sequence); the concatenated list itself is not
globally ascending by date. -/
theorem detect_grouped_by_kind_sorted (short long : Nat) (t : String)
    (rows : List (Nat × Rat)) (hdates : List.Chain' (· < ·) (rows.map Prod.fst)) :
    detect_crossovers short long t rows =
      goldenList short long t rows ++ deadList short long t rows ∧
    (goldenList short long t rows).all
      (fun s => s.signal_type == "GOLDEN_CROSS") = true ∧
    (deadList short long t rows).all
      (fun s => s.signal_type == "DEAD_CROSS") = true ∧
    List.Chain' (· < ·) ((goldenList short long t rows).map (fun s => s.date)) ∧
    List.Chain' (· < ·) ((deadList short long t rows).map (fun s => s.date)) ∧
    (detect_crossovers short long t rows).Perm (transList short long t rows) := by
  refine ⟨detect_crossovers_eq_append short long t rows, ?_, ?_,
    goldenList_dates_ascending short long t rows hdates,
    deadList_dates_ascending short long t rows hdates,
    detect_perm_transList short long t rows⟩
  · rw [List.all_eq_true]
    intro s hs
    obtain ⟨i, _, rfl⟩ := List.mem_map.mp hs
    simp [mkSignal]
  · rw [List.all_eq_true]
    intro s hs
    obtain ⟨i, _, rfl⟩ := List.mem_map.mp hs
    simp [mkSignal]

/-- Witness for C1 at a two-row frame with strictly ascending dates. -/
theorem detect_grouped_by_kind_sorted_witness :
    detect_crossovers 1 2 "T" [(0, 1), (1, 2)] =
      goldenList 1 2 "T" [(0, 1), (1, 2)] ++ deadList 1 2 "T" [(0, 1), (1, 2)] ∧
    (goldenList 1 2 "T" [(0, 1), (1, 2)]).all
      (fun s => s.signal_type == "GOLDEN_CROSS") = true ∧
    (deadList 1 2 "T" [(0, 1), (1, 2)]).all
      (fun s => s.signal_type == "DEAD_CROSS") = true ∧
    List.Chain' (· < ·)
      ((goldenList 1 2 "T" [(0, 1), (1, 2)]).map (fun s => s.date)) ∧
    List.Chain' (· < ·)
      ((deadList 1 2 "T" [(0, 1), (1, 2)]).map (fun s => s.date)) ∧
    (detect_crossovers 1 2 "T" [(0, 1), (1, 2)]).Perm
      (transList 1 2 "T" [(0, 1), (1, 2)]) :=
  detect_grouped_by_kind_sorted 1 2 "T" [(0, 1), (1, 2)] (by simp)

/-- C2 (amended): detect_crossovers emits one signal per transition — its
output is a permutation of the chronological transition sequence — and in
that chronological (date) order consecutive signals never share signal_type;
the concatenated output itself (golden pass then dead pass) can place
same-kind signals next to each other. -/
theorem detect_alternates_chronologically (short long : Nat) (t : String)
    (rows : List (Nat × Rat)) :
    (detect_crossovers short long t rows).Perm (transList short long t rows) ∧
    List.Chain' (fun s1 s2 => s1.signal_type ≠ s2.signal_type)
      (transList short long t rows) :=
  ⟨detect_perm_transList short long t rows, transList_alternates short long t rows⟩

/-! ## Tie handling and flat series (C7) -/

theorem maAt_replicate (c : Rat) (w i n : Nat) (hw : 1 ≤ w) (hwi : w ≤ i + 1)
    (hin : i < n) : maAt (List.replicate n c) w i = c := by
  rw [maAt, List.drop_replicate, List.take_replicate]
  have hmin : min w (n - (i + 1 - w)) = w := by omega
  rw [hmin, List.sum_replicate, nsmul_eq_mul]
  have hw0 : (w : Rat) ≠ 0 := by
    simp only [ne_eq, Nat.cast_eq_zero]
    omega
  exact mul_div_cancel_left₀ c hw0

theorem flat_closes (n : Nat) (c : Rat) :
    ((List.range n).map (fun j => (j, c))).map Prod.snd = List.replicate n c := by
  rw [List.map_map]
  have h1 : (Prod.snd ∘ fun j : Nat => (j, c)) = fun _ => c := rfl
  rw [h1, List.map_const', List.length_range]

theorem shortAbove_flat (short long n i : Nat) (c : Rat) (hshort : 1 ≤ short)
    (hsl : short ≤ long) (hli : long ≤ i + 1) (hin : i < n) :
    shortAbove (List.replicate n c) short long i = false := by
  rw [shortAbove, maAt_replicate c short i n hshort (by omega) hin,
    maAt_replicate c long i n (by omega) hli hin]
  simp

theorem isTransAt_flat (short long n i : Nat) (c : Rat) (hshort : 1 ≤ short)
    (hsl : short ≤ long) (hin : i < n) :
    isTransAt (List.replicate n c) short long i = false := by
  by_cases hp : hasPrevRow short long i = true
  · have h1 : long ≤ i := by
      simp only [hasPrevRow, Bool.and_eq_true, decide_eq_true_eq] at hp
      exact hp.2
    have hsa : shortAbove (List.replicate n c) short long i = false :=
      shortAbove_flat short long n i c hshort hsl (by omega) hin
    have hsa' : shortAbove (List.replicate n c) short long (i - 1) = false :=
      shortAbove_flat short long n (i - 1) c hshort hsl (by omega) (by omega)
    simp [isTransAt, isGoldenAt, isDeadAt, hsa, hsa']
  · have hp' : hasPrevRow short long i = false := by simpa using hp
    simp [isTransAt, isGoldenAt, isDeadAt, hp']

theorem detect_crossovers_flat (short long : Nat) (t : String) (c : Rat) (n : Nat)
    (hshort : 1 ≤ short) (hsl : short ≤ long) :
    detect_crossovers short long t ((List.range n).map (fun j => (j, c))) = [] := by
  rw [detect_crossovers_eq_append]
  have hlen : ((List.range n).map (fun j : Nat => (j, c))).length = n := by
    rw [List.length_map, List.length_range]
  have hg : goldenList short long t ((List.range n).map (fun j => (j, c))) = [] := by
    rw [goldenList, List.map_eq_nil_iff, List.filter_eq_nil_iff]
    intro i hi
    rw [hlen] at hi
    have hin : i < n := List.mem_range.mp hi
    have htr := isTransAt_flat short long n i c hshort hsl hin
    rw [flat_closes]
    simp only [isTransAt, Bool.or_eq_false_iff] at htr
    simp [htr.1]
  have hd : deadList short long t ((List.range n).map (fun j => (j, c))) = [] := by
    rw [deadList, List.map_eq_nil_iff, List.filter_eq_nil_iff]
    intro i hi
    rw [hlen] at hi
    have hin : i < n := List.mem_range.mp hi
    have htr := isTransAt_flat short long n i c hshort hsl hin
    rw [flat_closes]
    simp only [isTransAt, Bool.or_eq_false_iff] at htr
    simp [htr.2]
  rw [hg, hd]
  rfl

theorem get_current_status_flat (short long : Nat) (t : String) (c : Rat) (n : Nat)
    (hshort : 1 ≤ short) (hsl : short ≤ long) (hn : long ≤ n) :
    (get_current_status short long t ((List.range n).map (fun j => (j, c)))).status
      = "BEARISH" := by
  have hlen : ((List.range n).map (fun j : Nat => (j, c))).length = n := by
    rw [List.length_map, List.length_range]
  rw [get_current_status, if_neg (by rw [hlen]; omega)]
  show (if maAt (((List.range n).map (fun j : Nat => (j, c))).map Prod.snd) long
      ((((List.range n).map (fun j : Nat => (j, c))).length) - 1) <
      maAt (((List.range n).map (fun j : Nat => (j, c))).map Prod.snd) short
      ((((List.range n).map (fun j : Nat => (j, c))).length) - 1)
    then "BULLISH" else "BEARISH") = "BEARISH"
  rw [flat_closes, hlen,
    maAt_replicate c short (n - 1) n hshort (by omega) (by omega),
    maAt_replicate c long (n - 1) n (by omega) (by omega) (by omega)]
  rw [if_neg (lt_irrefl c)]

/-- C7 (amended): MA equality is classified as not-above. status is BULLISH
exactly when the short MA is strictly greater on the last row and BEARISH
otherwise, equality included; a row where the two MAs are exactly equal never
fires a GOLDEN_CROSS, but it fires a DEAD_CROSS exactly when the boolean is
defined there and the previous row was strictly above — an equality row can
therefore constitute a transition; a constant series of at least long_window
rows yields zero signals and status BEARISH. -/
theorem ma_equality_not_above (short long : Nat) (t : String)
    (rows : List (Nat × Rat)) (i n : Nat) (c : Rat)
    (hlen : long ≤ rows.length) (hshort : 1 ≤ short) (hsl : short ≤ long)
    (hma : maAt (rows.map Prod.snd) short i = maAt (rows.map Prod.snd) long i)
    (hn : long ≤ n) :
    ((get_current_status short long t rows).status = "BULLISH" ↔
      maAt (rows.map Prod.snd) long (rows.length - 1) <
        maAt (rows.map Prod.snd) short (rows.length - 1)) ∧
    ((get_current_status short long t rows).status = "BULLISH" ∨
      (get_current_status short long t rows).status = "BEARISH") ∧
    isGoldenAt (rows.map Prod.snd) short long i = false ∧
    isDeadAt (rows.map Prod.snd) short long i =
      (hasPrevRow short long i &&
        shortAbove (rows.map Prod.snd) short long (i - 1)) ∧
    detect_crossovers short long t ((List.range n).map (fun j => (j, c))) = [] ∧
    (get_current_status short long t
      ((List.range n).map (fun j => (j, c)))).status = "BEARISH" := by
  have hsnap : (get_current_status short long t rows).status =
      (if maAt (rows.map Prod.snd) long (rows.length - 1) <
          maAt (rows.map Prod.snd) short (rows.length - 1)
        then "BULLISH" else "BEARISH") := by
    rw [get_current_status, if_neg (by omega)]
  have hsa : shortAbove (rows.map Prod.snd) short long i = false := by
    rw [shortAbove, hma]
    simp
  refine ⟨?_, ?_, ?_, ?_,
    detect_crossovers_flat short long t c n hshort hsl,
    get_current_status_flat short long t c n hshort hsl hn⟩
  · rw [hsnap]
    split
    next h => exact iff_of_true rfl h
    next h => exact iff_of_false (by decide) h
  · rw [hsnap]
    split
    next h => exact Or.inl rfl
    next h => exact Or.inr rfl
  · simp [isGoldenAt, hsa]
  · simp [isDeadAt, hsa]

/-- Witness for C7 with a degenerate equal-window pair, for which the moving
average equality hypothesis holds by reflexivity. -/
theorem ma_equality_not_above_witness :
    ((get_current_status 1 1 "T" [(0, 7)]).status = "BULLISH" ↔
      maAt (([((0 : Nat), (7 : Rat))]).map Prod.snd) 1
          (([((0 : Nat), (7 : Rat))]).length - 1) <
        maAt (([((0 : Nat), (7 : Rat))]).map Prod.snd) 1
          (([((0 : Nat), (7 : Rat))]).length - 1)) ∧
    ((get_current_status 1 1 "T" [(0, 7)]).status = "BULLISH" ∨
      (get_current_status 1 1 "T" [(0, 7)]).status = "BEARISH") ∧
    isGoldenAt (([((0 : Nat), (7 : Rat))]).map Prod.snd) 1 1 0 = false ∧
    isDeadAt (([((0 : Nat), (7 : Rat))]).map Prod.snd) 1 1 0 =
      (hasPrevRow 1 1 0 &&
        shortAbove (([((0 : Nat), (7 : Rat))]).map Prod.snd) 1 1 (0 - 1)) ∧
    detect_crossovers 1 1 "T" ((List.range 2).map (fun j => (j, (5 : Rat)))) = [] ∧
    (get_current_status 1 1 "T"
      ((List.range 2).map (fun j => (j, (5 : Rat))))).status = "BEARISH" :=
  ma_equality_not_above 1 1 "T" [(0, 7)] 0 2 5 (by decide) (by decide) (by decide)
    rfl (by decide)

/-- Concrete price frame with the configured windows (5, 30): thirty rising
closes 101..130 (so the short MA starts strictly above the long MA), a crash
to 0 that fires a DEAD_CROSS on day 30, then a rally to 1000 that fires a
GOLDEN_CROSS on day 33. -/
def seriesC1 : List (Nat × Rat) := [(0, 101), (1, 102), (2, 103), (3, 104), (4, 105), (5, 106), (6, 107), (7, 108), (8, 109), (9, 110), (10, 111), (11, 112), (12, 113), (13, 114), (14, 115), (15, 116), (16, 117), (17, 118), (18, 119), (19, 120), (20, 121), (21, 122), (22, 123), (23, 124), (24, 125), (25, 126), (26, 127), (27, 128), (28, 129), (29, 130), (30, 0), (31, 0), (32, 0), (33, 1000), (34, 1000)]

/-- Concrete price frame like seriesC1 with a second crash appended, firing a
second DEAD_CROSS on day 39: chronologically DEAD@30, GOLDEN@33, DEAD@39. -/
def seriesC2 : List (Nat × Rat) := [(0, 101), (1, 102), (2, 103), (3, 104), (4, 105), (5, 106), (6, 107), (7, 108), (8, 109), (9, 110), (10, 111), (11, 112), (12, 113), (13, 114), (14, 115), (15, 116), (16, 117), (17, 118), (18, 119), (19, 120), (20, 121), (21, 122), (22, 123), (23, 124), (24, 125), (25, 126), (26, 127), (27, 128), (28, 129), (29, 130), (30, 0), (31, 0), (32, 0), (33, 1000), (34, 1000), (35, 0), (36, 0), (37, 0), (38, 0), (39, 0), (40, 0)]

/-- Concrete price frame: thirty rising closes 101..130, then a close of 56
chosen so that on day 30 the five-day and thirty-day means are exactly equal
(both 114) while the previous day was strictly above. -/
def seriesC7 : List (Nat × Rat) := [(0, 101), (1, 102), (2, 103), (3, 104), (4, 105), (5, 106), (6, 107), (7, 108), (8, 109), (9, 110), (10, 111), (11, 112), (12, 113), (13, 114), (14, 115), (15, 116), (16, 117), (17, 118), (18, 119), (19, 120), (20, 121), (21, 122), (22, 123), (23, 124), (24, 125), (25, 126), (26, 127), (27, 128), (28, 129), (29, 130), (30, 56)]

/-! ## Counterexamples on concrete series (configured windows 5 and 30) -/

set_option maxHeartbeats 4000000 in
/-- Counterexample for C1 as stated: on seriesC1 the golden cross of day 33
precedes the dead cross of day 30 in the list detect_crossovers returns, so
the output is not ordered ascending by date. -/
theorem detect_not_date_sorted_counterexample :
    (detect_crossovers 5 30 "TQQQ" seriesC1).map (fun s => s.date) = [33, 30] ∧
    ¬ List.Chain' (· ≤ ·)
      ((detect_crossovers 5 30 "TQQQ" seriesC1).map (fun s => s.date)) := by
  have h : (detect_crossovers 5 30 "TQQQ" seriesC1).map (fun s => s.date)
      = [33, 30] := by
    norm_num [detect_crossovers, goldenList, deadList, List.range_succ, isGoldenAt,
      isDeadAt, hasPrevRow, shortAbove, maAt, mkSignal, dateAt, seriesC1]
  refine ⟨h, ?_⟩
  rw [h]
  simp [List.chain'_cons]

set_option maxHeartbeats 8000000 in
/-- Counterexample for C2 as stated: on seriesC2 detect_crossovers returns
GOLDEN@33, DEAD@30, DEAD@39 in that order, so two consecutive entries of the
returned list share signal_type. -/
theorem detect_consecutive_same_kind_counterexample :
    (detect_crossovers 5 30 "TQQQ" seriesC2).map
      (fun s => (s.date, s.signal_type)) =
      [(33, "GOLDEN_CROSS"), (30, "DEAD_CROSS"), (39, "DEAD_CROSS")] ∧
    ¬ List.Chain' (fun s1 s2 => s1.signal_type ≠ s2.signal_type)
      (detect_crossovers 5 30 "TQQQ" seriesC2) := by
  have h : (detect_crossovers 5 30 "TQQQ" seriesC2).map
      (fun s => (s.date, s.signal_type)) =
      [(33, "GOLDEN_CROSS"), (30, "DEAD_CROSS"), (39, "DEAD_CROSS")] := by
    norm_num [detect_crossovers, goldenList, deadList, List.range_succ, isGoldenAt,
      isDeadAt, hasPrevRow, shortAbove, maAt, mkSignal, dateAt, seriesC2]
  refine ⟨h, fun hchain => ?_⟩
  have h2 : List.Chain' (fun p1 p2 : Nat × String => p1.2 ≠ p2.2)
      ((detect_crossovers 5 30 "TQQQ" seriesC2).map
        (fun s => (s.date, s.signal_type))) := by
    rw [List.chain'_map]
    exact hchain
  rw [h] at h2
  simp [List.chain'_cons] at h2

set_option maxHeartbeats 8000000 in
/-- Counterexample for the "equality never constitutes a transition" part of
C7: on seriesC7 day 30 has exactly equal five-day and thirty-day means (both
114), yet detect_crossovers emits a DEAD_CROSS dated 30. -/
theorem ma_equality_transition_counterexample :
    maAt (seriesC7.map Prod.snd) 5 30 = maAt (seriesC7.map Prod.snd) 30 30 ∧
    detect_crossovers 5 30 "TQQQ" seriesC7 =
      [{ ticker := "TQQQ", date := 30, signal_type := "DEAD_CROSS",
         close_price := 56, ma5 := 114, ma30 := 114 }] := by
  constructor
  · norm_num [maAt, seriesC7]
  · norm_num [detect_crossovers, goldenList, deadList, List.range_succ, isGoldenAt,
      isDeadAt, hasPrevRow, shortAbove, maAt, mkSignal, dateAt, seriesC7,
      Signal.mk.injEq]

end TQQQ
